import Mathlib

/-!
Formal model of the screenshot-fetch caching subsystem of the showhn
repository (src/showhn/scripts/fetch_screenshots.py and the parts of
src/showhn/scripts/screenshot_api.py it calls).

The filesystem is modelled as a partial map from filename (String) to file
content (String); `none` means the file does not exist (opening it raises,
which the Python code catches).  `fetch` below is a direct embedding of the
Python function `fetch(ids_and_urls, directory)`; `fetcherItem`/`fetcherRun`
embed `Fetcher.__call__`, with `save_file_to_fs` and the network call
`screenshot(url)` folded into `fetchAndSave` via the `FetchOutcome` type.
-/

namespace ShowHN

/-- A filesystem: filename to content; `none` = file absent (open raises). -/
def FS : Type := String → Option String

/-- Pointwise update of a filesystem (what a successful `open(f,"w");write`
does). -/
def fupdate (fs : FS) (f : String) (c : String) : FS :=
  fun g => if g = f then some c else fs g

/-- Constant `DUMMY_FILENAME` of fetch_screenshots.py. -/
def DUMMY_FILENAME : String := "static/dummy.png"

/-- Constant `NONE_FILENAME` of fetch_screenshots.py. -/
def NONE_FILENAME : String := "static/none.png"

/-- Filename `formatted_dir + str(id_name) + ".png"`. -/
def pngName (d id : String) : String := d ++ id ++ ".png"

/-- Filename `formatted_dir + str(id_name) + ".jpg"`. -/
def jpgName (d id : String) : String := d ++ id ++ ".jpg"

/-- The usability test `fetch` applies to the contents read from
`{id}.png`: the file opened successfully and `len(temp) < 100` is false.
An absent file (open raised) is unusable. -/
def usable (c : Option String) : Bool :=
  match c with
  | none => false
  | some s => 100 ≤ s.length

/-- The directory formatting at the top of `fetch`:
`directory[-1]` raises IndexError on the empty string (uncaught, so the
whole call fails, modelled by `none`); otherwise `'/'` is appended unless
already present. -/
def formattedDir (directory : String) : Option String :=
  match directory.data.getLast? with
  | none => none
  | some c => some (if c = '/' then directory else directory ++ "/")

/-- State threaded through the loop body of `fetch`: the result dict
`ret_dict` (a map, modelled as a function), the miss list `to_be_found`,
the filesystem, and a clock counting calls to `time()` (the token for the
n-th call is `tok n` for an ambient token function, modelling
`str(time())`). -/
structure RState where
  ret : String → Option String
  misses : List (String × String × String)
  fs : FS
  clock : Nat

/-- One iteration of the `for id_name, url in ids_and_urls` loop of
`fetch`: `url is None` maps to the "none" placeholder; else a usable
`{id}.png` is a HIT; else an existing `{id}.jpg` is a HIT (existence only,
no length check); else a freshness token is written into `{id}.png`, the id
maps to the "dummy" placeholder, and `(id, url, token)` is appended to the
miss list. -/
def resolveOne (tok : Nat → String) (d : String) (s : RState)
    (p : String × Option String) : RState :=
  match p.2 with
  | none =>
      { s with ret := fun k => if k = p.1 then some NONE_FILENAME else s.ret k }
  | some url =>
      if usable (s.fs (pngName d p.1)) then
        { s with ret := fun k => if k = p.1 then some (pngName d p.1) else s.ret k }
      else if (s.fs (jpgName d p.1)).isSome then
        { s with ret := fun k => if k = p.1 then some (jpgName d p.1) else s.ret k }
      else
        { ret := fun k => if k = p.1 then some DUMMY_FILENAME else s.ret k
          misses := s.misses ++ [(p.1, url, tok s.clock)]
          fs := fupdate s.fs (pngName d p.1) (tok s.clock)
          clock := s.clock + 1 }

/-- The whole request loop of `fetch`. -/
def resolveItems (tok : Nat → String) (d : String)
    (ps : List (String × Option String)) (s : RState) : RState :=
  ps.foldl (resolveOne tok d) s

/-- Embedding of `fetch(ids_and_urls, directory)` run on filesystem `fs`
with `clock` prior `time()` calls: `none` when the directory string is
empty (IndexError in `directory[-1]`), otherwise the final state, whose
`ret` is the returned id-to-filename map and whose `misses` is the batch
handed to the background `Fetcher` thread. -/
def fetch (tok : Nat → String) (reqs : List (String × Option String))
    (directory : String) (fs : FS) (clock : Nat) : Option RState :=
  match formattedDir directory with
  | none => none
  | some d => some (resolveItems tok d reqs ⟨fun _ => none, [], fs, clock⟩)

/-- Outcome of `screenshot(url)` followed by `img_file.read()` inside
`save_file_to_fs`: `netFail` = `urlopen` raised (nothing written);
`readFail` = the response object was returned but reading its body raised
after `save_file_to_fs` had already opened the target with mode "w"
(truncation), leaving an empty file; `ok bytes` = the body was read and
written in full. -/
inductive FetchOutcome where
  | netFail : FetchOutcome
  | readFail : FetchOutcome
  | ok : String → FetchOutcome

/-- Embedding of `save_file_to_fs(screenshot(url), filename)` as a
filesystem transformer, given the outcome of the network interaction.  `open` with
mode "w" truncates before `read()` is evaluated, so a read failure leaves
an empty file. -/
def fetchAndSave (o : FetchOutcome) (filename : String) (fs : FS) : FS :=
  match o with
  | .netFail => fs
  | .readFail => fupdate fs filename ""
  | .ok b => fupdate fs filename b

/-- One iteration of `Fetcher.__call__` on a `(id, url, time_str)` triple:
read `{id}.png` (an absent file raises, caught by the bare except); if its
contents equal the carried token, fetch and save; any failure is swallowed
by `except: pass`. -/
def fetcherItem (provider : String → FetchOutcome) (d : String) (fs : FS)
    (m : String × String × String) : FS :=
  match fs (pngName d m.1) with
  | none => fs
  | some cur =>
      if cur = m.2.2 then fetchAndSave (provider m.2.1) (pngName d m.1) fs
      else fs

/-- The whole loop of `Fetcher.__call__` over the miss list. -/
def fetcherRun (provider : String → FetchOutcome) (d : String)
    (ms : List (String × String × String)) (fs : FS) : FS :=
  ms.foldl (fetcherItem provider d) fs

/-!
Interleaved-execution model for the token protocol on a single id's
`{id}.png` file.  The background fetcher's body for one item decomposes
into a `check` step (the read-and-compare before the network call) and a
`commit` step (the `save_file_to_fs` write after the network call
returns); the network call suspends between them.  A concurrent
`resolve()` call that classifies the id as MISS performs an `overwrite`
step (writing its fresh token).  `Ev` is an event of one such interleaved
history, acting on the file's content; `checked` records whether the
traced fetch's comparison succeeded.
-/

/-- One event of an interleaved history on a single cache file. -/
inductive Ev where
  | overwrite : String → Ev
  | check : Ev
  | commit : String → Ev

/-- Content of the traced file plus whether the traced fetch's token
comparison has succeeded. -/
structure TState where
  content : Option String
  checked : Bool

/-- Effect of one event, for a traced fetch carrying token `tok1`:
`overwrite t` is a later resolve() writing its token `t`; `check` is the
traced fetch's read-and-compare (`cur_str == time_str`); `commit img` is
the traced fetch's write of the fetched image, which the code performs
exactly when the comparison succeeded. -/
def stepEv (tok1 : String) (s : TState) : Ev → TState
  | .overwrite t => ⟨some t, s.checked⟩
  | .check => ⟨s.content, decide (s.content = some tok1)⟩
  | .commit img => if s.checked then ⟨some img, s.checked⟩ else s

/-- Run a history of events. -/
def runEvs (tok1 : String) (s : TState) (evs : List Ev) : TState :=
  evs.foldl (stepEv tok1) s

/-! Basic facts about filenames. -/

lemma string_data_inj {s t : String} (h : s.data = t.data) : s = t := by
  cases s
  cases t
  simp only at h
  rw [h]

lemma pngName_inj {d i j : String} (h : pngName d i = pngName d j) : i = j := by
  have hd := congrArg String.data h
  simp only [pngName, String.data_append, List.append_assoc] at hd
  have h1 := List.append_cancel_left hd
  have h2 := List.append_cancel_right h1
  exact string_data_inj h2

lemma pngName_ne_jpgName (d i j : String) : pngName d i ≠ jpgName d j := by
  intro h
  have hd := congrArg String.data h
  simp only [pngName, jpgName, String.data_append, List.append_assoc] at hd
  have h1 := List.append_cancel_left hd
  have h2 := congrArg List.reverse h1
  simp only [List.reverse_append] at h2
  have h3 := (List.append_inj h2 (by decide)).1
  exact absurd h3 (by decide)

lemma usable_short {t : String} (h : t.length < 100) : usable (some t) = false := by
  simp only [usable, decide_eq_false_iff_not]
  omega

/-! Structural lemmas about the resolver loop. -/

lemma resolveItems_nil (tok : Nat → String) (d : String) (s : RState) :
    resolveItems tok d [] s = s := rfl

lemma resolveItems_cons (tok : Nat → String) (d : String)
    (p : String × Option String) (ps : List (String × Option String)) (s : RState) :
    resolveItems tok d (p :: ps) s = resolveItems tok d ps (resolveOne tok d s p) := rfl

lemma resolveItems_append (tok : Nat → String) (d : String)
    (ps qs : List (String × Option String)) (s : RState) :
    resolveItems tok d (ps ++ qs) s = resolveItems tok d qs (resolveItems tok d ps s) := by
  simp [resolveItems, List.foldl_append]

/-- Every branch of the loop body either leaves the miss list, filesystem
and clock alone, or (exactly the MISS branch) appends one triple, writes
its token into the id's png file, and advances the clock. -/
lemma resolveOne_cases (tok : Nat → String) (d : String) (s : RState)
    (p : String × Option String) :
    ((resolveOne tok d s p).misses = s.misses ∧ (resolveOne tok d s p).fs = s.fs ∧
      (resolveOne tok d s p).clock = s.clock) ∨
    (∃ u, p.2 = some u ∧ usable (s.fs (pngName d p.1)) = false ∧
      s.fs (jpgName d p.1) = none ∧
      resolveOne tok d s p =
        ⟨fun k => if k = p.1 then some DUMMY_FILENAME else s.ret k,
          s.misses ++ [(p.1, u, tok s.clock)],
          fupdate s.fs (pngName d p.1) (tok s.clock), s.clock + 1⟩) := by
  rcases p with ⟨id, url⟩
  cases url with
  | none => left; simp [resolveOne]
  | some u =>
    simp only [resolveOne]
    by_cases h1 : usable (s.fs (pngName d id))
    · left; simp [h1]
    · by_cases h2 : (s.fs (jpgName d id)).isSome
      · left; simp [h1, h2]
      · right
        refine ⟨u, rfl, by simpa using h1, ?_, ?_⟩
        · exact Option.not_isSome_iff_eq_none.mp h2
        · simp [h1, h2]

/-- The loop body only ever updates the result map at the id it is
processing. -/
lemma resolveOne_ret_other (tok : Nat → String) (d : String) (s : RState)
    (p : String × Option String) (k : String) (hk : k ≠ p.1) :
    (resolveOne tok d s p).ret k = s.ret k := by
  rcases p with ⟨id, url⟩
  cases url with
  | none => simp [resolveOne, hk]
  | some u =>
    simp only [resolveOne]
    by_cases h1 : usable (s.fs (pngName d id))
    · simp [h1, hk]
    · by_cases h2 : (s.fs (jpgName d id)).isSome
      · simp [h1, h2, hk]
      · simp [h1, h2, hk]

/-- Every branch of the loop body stores some filename for the id it is
processing. -/
lemma resolveOne_ret_self (tok : Nat → String) (d : String) (s : RState)
    (p : String × Option String) : ((resolveOne tok d s p).ret p.1).isSome := by
  rcases p with ⟨id, url⟩
  cases url with
  | none => simp [resolveOne]
  | some u =>
    simp only [resolveOne]
    by_cases h1 : usable (s.fs (pngName d id))
    · simp [h1]
    · by_cases h2 : (s.fs (jpgName d id)).isSome
      · simp [h1, h2]
      · simp [h1, h2]

lemma resolveItems_ret_other (tok : Nat → String) (d : String)
    (ps : List (String × Option String)) (s : RState) (k : String)
    (hk : ∀ p ∈ ps, k ≠ p.1) :
    (resolveItems tok d ps s).ret k = s.ret k := by
  induction ps generalizing s with
  | nil => rfl
  | cons p ps ih =>
    rw [resolveItems_cons, ih _ fun q hq => hk q (List.mem_cons_of_mem p hq)]
    exact resolveOne_ret_other tok d s p k (hk p (List.mem_cons_self p ps))

lemma resolveItems_ret_mono (tok : Nat → String) (d : String)
    (ps : List (String × Option String)) (s : RState) (k : String)
    (h : (s.ret k).isSome) : ((resolveItems tok d ps s).ret k).isSome := by
  induction ps generalizing s with
  | nil => exact h
  | cons p ps ih =>
    rw [resolveItems_cons]
    apply ih
    by_cases hk : k = p.1
    · subst hk; exact resolveOne_ret_self tok d s p
    · rw [resolveOne_ret_other tok d s p k hk]; exact h

/-- Every id of the batch ends up bound in the result map. -/
lemma resolveItems_ret_total (tok : Nat → String) (d : String)
    (ps : List (String × Option String)) (s : RState) :
    ∀ p ∈ ps, ((resolveItems tok d ps s).ret p.1).isSome := by
  induction ps generalizing s with
  | nil => intro p hp; cases hp
  | cons q qs ih =>
    intro p hp
    rcases List.mem_cons.mp hp with h | h
    · rw [resolveItems_cons, h]
      exact resolveItems_ret_mono tok d qs _ q.1 (resolveOne_ret_self tok d s q)
    · rw [resolveItems_cons]; exact ih _ p h

lemma resolveItems_misses_sub (tok : Nat → String) (d : String)
    (ps : List (String × Option String)) (s : RState)
    (m : String × String × String) (hm : m ∈ s.misses) :
    m ∈ (resolveItems tok d ps s).misses := by
  induction ps generalizing s with
  | nil => exact hm
  | cons p ps ih =>
    rw [resolveItems_cons]
    apply ih
    rcases resolveOne_cases tok d s p with ⟨h, _, _⟩ | ⟨u, _, _, _, h⟩
    · rw [h]; exact hm
    · rw [h]; exact List.mem_append_left _ hm

/-- The miss list only grows, and every new triple carries an id of the
batch. -/
lemma resolveItems_misses_mono (tok : Nat → String) (d : String)
    (ps : List (String × Option String)) (s : RState) :
    ∃ new, (resolveItems tok d ps s).misses = s.misses ++ new ∧
      ∀ m ∈ new, m.1 ∈ ps.map Prod.fst := by
  induction ps generalizing s with
  | nil => exact ⟨[], by simp [resolveItems_nil], by simp⟩
  | cons p ps ih =>
    rw [resolveItems_cons]
    rcases ih (resolveOne tok d s p) with ⟨new, hnew, hmem⟩
    rcases resolveOne_cases tok d s p with ⟨h, _, _⟩ | ⟨u, _, _, _, h⟩
    · exact ⟨new, by rw [hnew, h], fun m hm => by simp [hmem m hm]⟩
    · refine ⟨(p.1, u, tok s.clock) :: new, ?_, ?_⟩
      · rw [hnew, h]; simp
      · intro m hm
        rcases List.mem_cons.mp hm with h2 | h2
        · subst h2; simp
        · simp [hmem m h2]

/-- The loop never touches a file other than the png files of the ids it
processes. -/
lemma resolveItems_fs_frame (tok : Nat → String) (d : String)
    (ps : List (String × Option String)) (s : RState) (f : String)
    (hf : ∀ p ∈ ps, f ≠ pngName d p.1) :
    (resolveItems tok d ps s).fs f = s.fs f := by
  induction ps generalizing s with
  | nil => rfl
  | cons p ps ih =>
    rw [resolveItems_cons, ih _ fun q hq => hf q (List.mem_cons_of_mem p hq)]
    rcases resolveOne_cases tok d s p with ⟨_, h, _⟩ | ⟨u, _, _, _, h⟩
    · rw [h]
    · rw [h]
      simp only [fupdate]
      rw [if_neg (hf p (List.mem_cons_self p ps))]

/-- A legacy jpg file is never written by the resolver. -/
lemma resolveItems_jpg_frame (tok : Nat → String) (d : String)
    (ps : List (String × Option String)) (s : RState) (j : String) :
    (resolveItems tok d ps s).fs (jpgName d j) = s.fs (jpgName d j) :=
  resolveItems_fs_frame tok d ps s _
    fun p _ => fun h => pngName_ne_jpgName d p.1 j h.symm

/-- Strong frame property: a file whose name is not the png file of some
triple of the final miss list is untouched. -/
lemma resolveItems_fs_miss_frame (tok : Nat → String) (d : String)
    (ps : List (String × Option String)) (s : RState) (f : String)
    (hf : ∀ m ∈ (resolveItems tok d ps s).misses, f ≠ pngName d m.1) :
    (resolveItems tok d ps s).fs f = s.fs f := by
  induction ps generalizing s with
  | nil => rfl
  | cons p ps ih =>
    rw [resolveItems_cons] at hf ⊢
    rw [ih _ hf]
    rcases resolveOne_cases tok d s p with ⟨_, h, _⟩ | ⟨u, _, _, _, h⟩
    · rw [h]
    · rw [h]
      simp only [fupdate]
      have hmem : (p.1, u, tok s.clock) ∈ (resolveItems tok d ps (resolveOne tok d s p)).misses := by
        apply resolveItems_misses_sub
        rw [h]
        exact List.mem_append_right _ (by simp)
      rw [if_neg (hf _ hmem)]

lemma fetch_eq_some (tok : Nat → String) (reqs : List (String × Option String))
    (dir : String) (fs : FS) (clock : Nat) (d : String)
    (hd : formattedDir dir = some d) :
    fetch tok reqs dir fs clock =
      some (resolveItems tok d reqs ⟨fun _ => none, [], fs, clock⟩) := by
  simp [fetch, hd]

lemma formattedDir_some (dir : String) (hdir : dir ≠ "") :
    ∃ d, formattedDir dir = some d := by
  cases hc : dir.data.getLast? with
  | none =>
    exfalso
    apply hdir
    apply string_data_inj
    simpa using List.getLast?_eq_none_iff.mp hc
  | some c =>
    exact ⟨if c = '/' then dir else dir ++ "/", by simp [formattedDir, hc]⟩

/-! Concrete objects used by the witness theorems. -/

/-- Sample token function standing in for successive `str(time())` values;
every produced token is shorter than 100 bytes. -/
def tok0 : Nat → String := fun n => String.mk (List.replicate (n % 3 + 1) 't')

lemma tok0_short : ∀ n, (tok0 n).length < 100 := by
  intro n
  have : (tok0 n).length = n % 3 + 1 := by
    simp [tok0, String.length]
  omega

/-- The empty cache directory. -/
def fsEmpty : FS := fun _ => none

/-! Claim theorems. -/

/-- C6: for every request batch, every token function and every prior
filesystem state (in particular one in which every past background fetch
failed, i.e. total provider outage — `fetch` itself never contacts the
provider), `fetch` on a non-empty directory string returns a mapping
(no fatal error) that binds every id appearing in the batch. -/
theorem C6_total_mapping_under_outage (tok : Nat → String)
    (reqs : List (String × Option String)) (dir : String) (fs : FS)
    (clock : Nat) (hdir : dir ≠ "") :
    ∃ r, fetch tok reqs dir fs clock = some r ∧
      ∀ p ∈ reqs, (r.ret p.1).isSome := by
  rcases formattedDir_some dir hdir with ⟨d, hd⟩
  refine ⟨_, fetch_eq_some tok reqs dir fs clock d hd, ?_⟩
  exact resolveItems_ret_total tok d reqs _

/-- Witness for C6 at a concrete batch and directory. -/
theorem C6_witness :
    ∃ r, fetch tok0 [("1", some "http://a"), ("2", none)] "c" fsEmpty 0 = some r ∧
      ∀ p ∈ [(("1" : String), some "http://a"), ("2", none)], (r.ret p.1).isSome := by
  exact C6_total_mapping_under_outage tok0 [("1", some "http://a"), ("2", none)]
    "c" fsEmpty 0 (by decide)

/-- C9: frame effect of the resolver — any file that is not the png file
of one of the ids the call classified as MISS (i.e. of one of the triples
of the produced miss list) has the same content after `fetch` as before;
in particular HIT png files, legacy jpg files, placeholder assets and
files of ids outside the batch are untouched. -/
theorem C9_resolver_frame_effect (tok : Nat → String)
    (reqs : List (String × Option String)) (dir : String) (fs : FS)
    (clock : Nat) (d : String) (r : RState)
    (hd : formattedDir dir = some d)
    (hr : fetch tok reqs dir fs clock = some r)
    (f : String) (hf : ∀ m ∈ r.misses, f ≠ pngName d m.1) :
    r.fs f = fs f := by
  rw [fetch_eq_some tok reqs dir fs clock d hd] at hr
  have hr2 := Option.some.inj hr
  subst hr2
  exact resolveItems_fs_miss_frame tok d reqs _ f hf

/-- Witness for C9: a batch with one HIT and one NULL id modifies nothing
at the jpg file of a third id. -/
theorem C9_witness :
    ∃ r, fetch tok0 [("2", none)] "c" fsEmpty 0 = some r ∧
      r.fs (jpgName "c/" "9") = fsEmpty (jpgName "c/" "9") := by
  refine ⟨_, fetch_eq_some tok0 [("2", none)] "c" fsEmpty 0 "c/" (by decide), ?_⟩
  apply C9_resolver_frame_effect tok0 [("2", none)] "c" fsEmpty 0 "c/" _ (by decide)
    (fetch_eq_some tok0 [("2", none)] "c" fsEmpty 0 "c/" (by decide))
  intro m hm
  have : (resolveItems tok0 "c/" [("2", none)] ⟨fun _ => none, [], fsEmpty, 0⟩).misses = [] := by
    decide
  rw [this] at hm
  cases hm

/-- C8: directory-path normalization — for a non-empty directory string
whose last character is not a slash, running `fetch` on `d` and on
`d ++ "/"` is the same call (same mapping, same files, same miss list);
and on the empty directory string `fetch` fails (the Python code raises
IndexError on `directory[-1]`). -/
theorem C8_directory_normalization (tok : Nat → String)
    (reqs : List (String × Option String)) (fs : FS) (clock : Nat) :
    (∀ (d : String) (c : Char), d.data.getLast? = some c → c ≠ '/' →
      fetch tok reqs d fs clock = fetch tok reqs (d ++ "/") fs clock) ∧
    fetch tok reqs "" fs clock = none := by
  constructor
  · intro d c hc hslash
    have h1 : formattedDir d = some (d ++ "/") := by
      simp [formattedDir, hc, hslash]
    have h2 : formattedDir (d ++ "/") = some (d ++ "/") := by
      have hlast : (d ++ "/").data.getLast? = some '/' := by
        rw [String.data_append]
        exact List.getLast?_concat _
      simp [formattedDir, hlast]
    rw [fetch_eq_some tok reqs d fs clock _ h1,
      fetch_eq_some tok reqs (d ++ "/") fs clock _ h2]
  · rfl

/-- Witness for C8 at the concrete directory "c". -/
theorem C8_witness :
    fetch tok0 [("1", some "http://a")] "c" fsEmpty 0 =
      fetch tok0 [("1", some "http://a")] "c/" fsEmpty 0 :=
  (C8_directory_normalization tok0 [("1", some "http://a")] fsEmpty 0).1
    "c" 'c' rfl (by decide)

/-- C7: a png file shorter than 100 bytes (for instance one holding a
freshness token) is treated as MISS by the next `fetch` call: the id is
mapped to the dummy placeholder, not to that file, and (its legacy jpg
being absent) a fresh token is written into the png file and the id is
re-enqueued with that token. -/
theorem C7_corrupt_file_as_miss (tok : Nat → String) (dir d : String)
    (fs : FS) (clock : Nat) (id u s : String)
    (q1 q2 : List (String × Option String))
    (hd : formattedDir dir = some d)
    (h1 : ∀ p ∈ q1, id ≠ p.1) (h2 : ∀ p ∈ q2, id ≠ p.1)
    (hpng : fs (pngName d id) = some s) (hlen : s.length < 100)
    (hjpg : fs (jpgName d id) = none) (r : RState)
    (hr : fetch tok (q1 ++ (id, some u) :: q2) dir fs clock = some r) :
    r.ret id = some DUMMY_FILENAME ∧
      ∃ t, (id, u, t) ∈ r.misses ∧ r.fs (pngName d id) = some t := by
  rw [fetch_eq_some tok _ dir fs clock d hd] at hr
  have hr2 := Option.some.inj hr
  rw [resolveItems_append, resolveItems_cons] at hr2
  set s0 : RState := ⟨fun _ => none, [], fs, clock⟩
  set sA : RState := resolveItems tok d q1 s0 with hsA
  have hApng : sA.fs (pngName d id) = some s := by
    rw [hsA, resolveItems_fs_frame tok d q1 s0 _
      (fun p hp he => h1 p hp (pngName_inj he))]
    exact hpng
  have hAjpg : sA.fs (jpgName d id) = none := by
    rw [hsA, resolveItems_jpg_frame]
    exact hjpg
  have husable : usable (sA.fs (pngName d id)) = false := by
    rw [hApng]
    simp only [usable, decide_eq_false_iff_not]
    omega
  have hB : resolveOne tok d sA (id, some u) =
      ⟨fun k => if k = id then some DUMMY_FILENAME else sA.ret k,
        sA.misses ++ [(id, u, tok sA.clock)],
        fupdate sA.fs (pngName d id) (tok sA.clock), sA.clock + 1⟩ := by
    simp [resolveOne, husable, hAjpg]
  rw [hB] at hr2
  subst hr2
  refine ⟨?_, tok sA.clock, ?_, ?_⟩
  · rw [resolveItems_ret_other tok d q2 _ id h2]
    simp
  · apply resolveItems_misses_sub
    simp
  · rw [resolveItems_fs_frame tok d q2 _ _
      (fun p hp he => h2 p hp (pngName_inj he))]
    simp [fupdate]

/-- Cache state for the C7 witness: the png file of id 7 holds a 3-byte
string, its jpg file is absent. -/
def fs7 : FS := fun g => if g = pngName "c/" "7" then some "tok" else none

/-- Witness for C7 at a concrete batch, directory and cache state. -/
theorem C7_witness :
    ((fetch tok0 [("7", some "u")] "c" fs7 0).map (fun r =>
      decide (r.ret "7" = some DUMMY_FILENAME) &&
      r.misses.any (fun m =>
        decide (m.1 = "7") && decide (m.2.1 = "u") &&
        decide (r.fs (pngName "c/" "7") = some m.2.2)))) = some true := by
  have hd : formattedDir "c" = some "c/" := by decide
  have hfe := fetch_eq_some tok0 [("7", some "u")] "c" fs7 0 "c/" hd
  obtain ⟨hret, t, hmem, hdisk⟩ :=
    C7_corrupt_file_as_miss tok0 "c" "c/" fs7 0 "7" "u" "tok" [] [] hd
      (by simp) (by simp) (by decide) (by decide) (by decide) _ hfe
  rw [hfe]
  simp only [Option.map_some', Option.some.injEq, Bool.and_eq_true, decide_eq_true_eq,
    List.any_eq_true]
  exact ⟨hret, ("7", "u", t), hmem, ⟨rfl, rfl⟩, hdisk⟩

/-- C3 (amended): the usability criterion of `fetch` — a png entry is a
HIT exactly when the file exists with at least 100 bytes; the legacy jpg
fallback is a HIT on mere existence, with no length check; otherwise the
id maps to the dummy placeholder. -/
theorem C3_amended_usability (tok : Nat → String) (dir d : String) (fs : FS)
    (clock : Nat) (id u : String) (r : RState)
    (hd : formattedDir dir = some d)
    (hr : fetch tok [(id, some u)] dir fs clock = some r) :
    r.ret id = some (if usable (fs (pngName d id)) then pngName d id
      else if (fs (jpgName d id)).isSome then jpgName d id
      else DUMMY_FILENAME) := by
  rw [fetch_eq_some tok _ dir fs clock d hd] at hr
  have hr2 := Option.some.inj hr
  subst hr2
  by_cases hA : usable (fs (pngName d id))
  · simp [resolveItems, resolveOne, hA]
  · by_cases hB : (fs (jpgName d id)).isSome
    · simp [resolveItems, resolveOne, hA, hB]
    · simp [resolveItems, resolveOne, hA, hB]

/-- Cache state refuting C3 as stated: id 7 has no png file and a
one-byte legacy jpg file. -/
def fs3 : FS := fun g => if g = jpgName "c/" "7" then some "x" else none

/-- Counterexample to C3 as stated: the one-byte jpg file is not ignored;
`fetch` maps id 7 to it as a HIT even though its length is far below 100
bytes, so the minimum-length criterion does not apply to the legacy jpg
fallback entry. -/
theorem C3_counterexample :
    fs3 (pngName "c/" "7") = none ∧
    fs3 (jpgName "c/" "7") = some "x" ∧ ("x" : String).length < 100 ∧
    (fetch tok0 [("7", some "u")] "c" fs3 0).map (fun r => r.ret "7") =
      some (some (jpgName "c/" "7")) := by
  refine ⟨by decide, rfl, by decide, ?_⟩
  rw [fetch_eq_some tok0 [("7", some "u")] "c" fs3 0 "c/" (by decide)]
  decide

/-- Witness for the amended C3 at a concrete state with a usable png
file. -/
theorem C3_witness :
    ((fetch tok0 [("7", some "u")] "c" fs7 0).map (fun r => r.ret "7")) =
      some (some (if usable (fs7 (pngName "c/" "7")) then pngName "c/" "7"
        else if (fs7 (jpgName "c/" "7")).isSome then jpgName "c/" "7"
        else DUMMY_FILENAME)) := by
  have hd : formattedDir "c" = some "c/" := by decide
  have hfe := fetch_eq_some tok0 [("7", some "u")] "c" fs7 0 "c/" hd
  rw [hfe]
  simp only [Option.map_some']
  rw [C3_amended_usability tok0 "c" "c/" fs7 0 "7" "u" _ hd hfe]

/-- C2 (amended): when the token check passes and the screenshot fetch
fails — at the network call (`netFail`) or while reading the response
body (`readFail`) — `Fetcher.__call__` surfaces no error (the bare
`except` swallows it; the embedding is a total function) and the png
file's content afterwards is exactly: the unchanged token on a network
failure (nothing was written), and the empty string — truncated to 0
bytes, NOT unchanged — on a read failure (`save_file_to_fs` opens the
target with mode "w" before the failing `read()`). In both failure modes
the file is left present but shorter than 100 bytes, so the next `fetch`
treats the id as MISS again. -/
theorem C2_amended_failure_soft (provider : String → FetchOutcome)
    (d : String) (fs : FS) (id u t : String)
    (hcur : fs (pngName d id) = some t) (hshort : t.length < 100) :
    (provider u = FetchOutcome.netFail →
      (fetcherItem provider d fs (id, u, t)) (pngName d id) = some t) ∧
    (provider u = FetchOutcome.readFail →
      (fetcherItem provider d fs (id, u, t)) (pngName d id) = some "") ∧
    (provider u = FetchOutcome.netFail ∨ provider u = FetchOutcome.readFail →
      ((fetcherItem provider d fs (id, u, t)) (pngName d id)).isSome = true ∧
      usable ((fetcherItem provider d fs (id, u, t)) (pngName d id)) = false) := by
  have hstep : fetcherItem provider d fs (id, u, t) =
      fetchAndSave (provider u) (pngName d id) fs := by
    simp [fetcherItem, hcur]
  have hnet : provider u = FetchOutcome.netFail →
      (fetcherItem provider d fs (id, u, t)) (pngName d id) = some t := by
    intro h
    rw [hstep, h]
    simp [fetchAndSave, hcur]
  have hread : provider u = FetchOutcome.readFail →
      (fetcherItem provider d fs (id, u, t)) (pngName d id) = some "" := by
    intro h
    rw [hstep, h]
    simp [fetchAndSave, fupdate]
  refine ⟨hnet, hread, ?_⟩
  rintro (h | h)
  · rw [hnet h]
    exact ⟨rfl, usable_short hshort⟩
  · rw [hread h]
    exact ⟨rfl, usable_short (by decide)⟩

/-- Cache state for the C2 theorems: the png file of id 7 holds exactly
the pending token "1000.5". -/
def fsC2 : FS := fun g => if g = pngName "c/" "7" then some "1000.5" else none

/-- Counterexample to C2 as stated: with the token check passing, a
failure while reading the response body leaves the file truncated to the
empty string — its content is NOT unchanged (`save_file_to_fs` opens the
target with mode "w", truncating it, before the failing read). -/
theorem C2_counterexample :
    fsC2 (pngName "c/" "7") = some "1000.5" ∧
    fetcherItem (fun _ => FetchOutcome.readFail) "c/" fsC2
      ("7", "u", "1000.5") (pngName "c/" "7") = some "" ∧
    decide (("" : String) = "1000.5") = false := by
  refine ⟨rfl, by decide, by decide⟩

/-- Witness for the amended C2 at a concrete network failure and a
concrete read failure. -/
theorem C2_witness :
    (fetcherItem (fun _ => FetchOutcome.netFail) "c/" fsC2
        ("7", "u", "1000.5")) (pngName "c/" "7") = some "1000.5" ∧
    (fetcherItem (fun _ => FetchOutcome.readFail) "c/" fsC2
        ("7", "u", "1000.5")) (pngName "c/" "7") = some "" ∧
    usable ((fetcherItem (fun _ => FetchOutcome.readFail) "c/" fsC2
        ("7", "u", "1000.5")) (pngName "c/" "7")) = false := by
  obtain ⟨hn, _, _⟩ := C2_amended_failure_soft (fun _ => FetchOutcome.netFail)
    "c/" fsC2 "7" "u" "1000.5" rfl (by decide)
  obtain ⟨_, hr, hu⟩ := C2_amended_failure_soft (fun _ => FetchOutcome.readFail)
    "c/" fsC2 "7" "u" "1000.5" rfl (by decide)
  exact ⟨hn rfl, hr rfl, (hu (Or.inr rfl)).2⟩

/-! Lemmas for C1, relating the interleaved trace model to the code. -/

/-- Correspondence between one `Fetcher.__call__` iteration run without
interference and its event-level decomposition: the file contents the
iteration leaves behind equal those of the history "check, then commit
whatever the fetch produced" (no commit on a network failure, a commit of
the empty string on a read failure, a commit of the image on success). -/
lemma fetcherItem_as_events (provider : String → FetchOutcome) (d : String)
    (fs : FS) (id u t c : String) (hc : fs (pngName d id) = some c) :
    (fetcherItem provider d fs (id, u, t)) (pngName d id) =
      (runEvs t ⟨some c, false⟩ ([Ev.check] ++
        (match provider u with
          | .netFail => []
          | .readFail => [Ev.commit ""]
          | .ok b => [Ev.commit b]))).content := by
  by_cases hct : c = t
  · subst hct
    cases hp : provider u <;>
      simp [fetcherItem, hc, hp, runEvs, stepEv, fetchAndSave, fupdate]
  · cases hp : provider u <;>
      simp [fetcherItem, hc, hp, hct, runEvs, stepEv, fetchAndSave, fupdate]

/-- Commit events of a fetch whose token check has failed never change
the file. -/
lemma runEvs_commits_noop (tok1 : String) (c : Option String)
    (imgs : List String) :
    runEvs tok1 ⟨c, false⟩ (imgs.map Ev.commit) = ⟨c, false⟩ := by
  induction imgs with
  | nil => rfl
  | cons i is ih =>
    have h1 : stepEv tok1 ⟨c, false⟩ (Ev.commit i) = ⟨c, false⟩ := by
      simp [stepEv]
    simp only [List.map_cons, runEvs, List.foldl_cons]
    simpa [runEvs, h1] using ih

/-- C1 (amended): the earlier fetch's stale write never lands when the
later resolve() overwrites the token BEFORE the earlier fetch performs
its token check (the read-and-compare preceding the network call): the
file then keeps the later token, whatever the earlier fetch tries to
commit afterwards. The check happens at fetch-start, not at write time —
an overwrite between check and write is not detected (see the
counterexample). -/
theorem C1_amended_stale_rejection (tok1 t2 : String) (imgs : List String)
    (h : t2 ≠ tok1) :
    (runEvs tok1 ⟨some tok1, false⟩
      (Ev.overwrite t2 :: Ev.check :: imgs.map Ev.commit)).content = some t2 := by
  have h1 : stepEv tok1 ⟨some tok1, false⟩ (Ev.overwrite t2) = ⟨some t2, false⟩ := rfl
  have h2 : stepEv tok1 ⟨some t2, false⟩ Ev.check = ⟨some t2, false⟩ := by
    simp [stepEv, h]
  simp only [runEvs, List.foldl_cons, h1, h2]
  rw [show (List.foldl (stepEv tok1) ⟨some t2, false⟩ (imgs.map Ev.commit)) =
    runEvs tok1 ⟨some t2, false⟩ (imgs.map Ev.commit) from rfl]
  rw [runEvs_commits_noop]

/-- A 100-byte image, long enough to count as a usable cache entry. -/
def staleImg : String := String.mk (List.replicate 100 'a')

/-- Counterexample to C1 as stated: the later resolve() overwrites the
on-disk token for the id after the earlier fetch was scheduled (and had
passed its check) but before its write completed, yet the earlier fetch's
stale image DOES land: the final content is the earlier fetch's image —
neither the later fetch's result nor a pending token. -/
theorem C1_counterexample :
    (runEvs "1000.5" ⟨some "1000.5", false⟩
      [Ev.check, Ev.overwrite "1000.9", Ev.commit staleImg]).content =
        some staleImg ∧
    decide (staleImg = "1000.9") = false ∧
    decide (staleImg = "1000.5") = false ∧
    100 ≤ staleImg.length := by
  refine ⟨by decide, by decide, by decide, by decide⟩

/-- Witness for the amended C1. -/
theorem C1_witness :
    (runEvs "1000.5" ⟨some "1000.5", false⟩
      (Ev.overwrite "1000.9" :: Ev.check :: [staleImg].map Ev.commit)).content =
        some "1000.9" :=
  C1_amended_stale_rejection "1000.5" "1000.9" [staleImg] (by decide)

/-! Machinery for C4 (idempotence): two cache states that agree on png
usability and jpg existence for every id drive the resolver through the
same branches. -/

/-- Observational equivalence of two cache states with respect to the
classification tests of the resolver. -/
def obsEq (d : String) (fs1 fs2 : FS) : Prop :=
  ∀ id : String, usable (fs1 (pngName d id)) = usable (fs2 (pngName d id)) ∧
    (fs1 (jpgName d id)).isSome = (fs2 (jpgName d id)).isSome

lemma obsEq_refl (d : String) (fs : FS) : obsEq d fs fs := fun _ => ⟨rfl, rfl⟩

lemma obsEq_symm {d : String} {fs1 fs2 : FS} (h : obsEq d fs1 fs2) :
    obsEq d fs2 fs1 := fun k => ⟨(h k).1.symm, (h k).2.symm⟩

lemma obsEq_trans {d : String} {f1 f2 f3 : FS} (h12 : obsEq d f1 f2)
    (h23 : obsEq d f2 f3) : obsEq d f1 f3 :=
  fun k => ⟨(h12 k).1.trans (h23 k).1, (h12 k).2.trans (h23 k).2⟩

/-- Writing a short token over an unusable png entry does not change what
the resolver can observe. -/
lemma obsEq_write_token (d : String) (fs : FS) (id t : String)
    (hun : usable (fs (pngName d id)) = false) (ht : t.length < 100) :
    obsEq d fs (fupdate fs (pngName d id) t) := by
  intro k
  constructor
  · simp only [fupdate]
    by_cases hk : pngName d k = pngName d id
    · rw [if_pos hk, hk, hun, usable_short ht]
    · rw [if_neg hk]
  · simp only [fupdate]
    rw [if_neg (Ne.symm (pngName_ne_jpgName d id k))]

/-- Writing short tokens over the same unusable png entry on both sides
preserves observational equivalence. -/
lemma obsEq_update_both {d : String} {fs1 fs2 : FS} (h : obsEq d fs1 fs2)
    (id : String) (t1 t2 : String) (ht1 : t1.length < 100)
    (ht2 : t2.length < 100) :
    obsEq d (fupdate fs1 (pngName d id) t1) (fupdate fs2 (pngName d id) t2) := by
  intro k
  constructor
  · simp only [fupdate]
    by_cases hk : pngName d k = pngName d id
    · rw [if_pos hk, if_pos hk, usable_short ht1, usable_short ht2]
    · rw [if_neg hk, if_neg hk]
      exact (h k).1
  · simp only [fupdate]
    rw [if_neg (Ne.symm (pngName_ne_jpgName d id k)),
      if_neg (Ne.symm (pngName_ne_jpgName d id k))]
    exact (h k).2

/-- One loop iteration run on two observationally equivalent states with
pointwise equal result maps takes the same branch and keeps both
relations. -/
lemma resolveOne_sim (tok : Nat → String) (d : String)
    (hshort : ∀ n, (tok n).length < 100) (s1 s2 : RState)
    (p : String × Option String)
    (hret : ∀ k, s1.ret k = s2.ret k) (hobs : obsEq d s1.fs s2.fs) :
    (∀ k, (resolveOne tok d s1 p).ret k = (resolveOne tok d s2 p).ret k) ∧
    obsEq d (resolveOne tok d s1 p).fs (resolveOne tok d s2 p).fs := by
  rcases p with ⟨id, url⟩
  cases url with
  | none =>
    constructor
    · intro k
      simp only [resolveOne]
      by_cases hk : k = id <;> simp [hk, hret k]
    · simpa [resolveOne] using hobs
  | some u =>
    have hpng := (hobs id).1
    have hjpg := (hobs id).2
    simp only [resolveOne]
    by_cases hA : usable (s1.fs (pngName d id))
    · rw [if_pos hA, if_pos (hpng ▸ hA)]
      refine ⟨fun k => ?_, hobs⟩
      by_cases hk : k = id <;> simp [hk, hret k]
    · rw [if_neg hA, if_neg (fun h => hA (hpng ▸ h))]
      by_cases hB : (s1.fs (jpgName d id)).isSome
      · rw [if_pos hB, if_pos (hjpg ▸ hB)]
        refine ⟨fun k => ?_, hobs⟩
        by_cases hk : k = id <;> simp [hk, hret k]
      · rw [if_neg hB, if_neg (fun h => hB (hjpg ▸ h))]
        constructor
        · intro k
          by_cases hk : k = id <;> simp [hk, hret k]
        · exact obsEq_update_both hobs id _ _ (hshort s1.clock) (hshort s2.clock)

/-- The whole loop run on two observationally equivalent states with
pointwise equal result maps produces pointwise equal result maps. -/
lemma resolveItems_sim (tok : Nat → String) (d : String)
    (hshort : ∀ n, (tok n).length < 100)
    (ps : List (String × Option String)) :
    ∀ s1 s2 : RState, (∀ k, s1.ret k = s2.ret k) → obsEq d s1.fs s2.fs →
      (∀ k, (resolveItems tok d ps s1).ret k = (resolveItems tok d ps s2).ret k) ∧
      obsEq d (resolveItems tok d ps s1).fs (resolveItems tok d ps s2).fs := by
  induction ps with
  | nil => intro s1 s2 hret hobs; exact ⟨hret, hobs⟩
  | cons p ps ih =>
    intro s1 s2 hret hobs
    rw [resolveItems_cons, resolveItems_cons]
    have hstep := resolveOne_sim tok d hshort s1 s2 p hret hobs
    exact ih _ _ hstep.1 hstep.2

/-- One loop iteration leaves the cache state observationally
equivalent. -/
lemma resolveOne_obs_step (tok : Nat → String) (d : String)
    (hshort : ∀ n, (tok n).length < 100) (s : RState)
    (p : String × Option String) :
    obsEq d s.fs (resolveOne tok d s p).fs := by
  rcases resolveOne_cases tok d s p with ⟨_, h, _⟩ | ⟨u, _, hun, _, h⟩
  · rw [h]
    exact obsEq_refl d s.fs
  · rw [h]
    exact obsEq_write_token d s.fs p.1 _ hun (hshort s.clock)

/-- A whole resolver pass leaves the cache state observationally
equivalent: it only ever writes short tokens over unusable png entries. -/
lemma resolveItems_obs_pass (tok : Nat → String) (d : String)
    (hshort : ∀ n, (tok n).length < 100)
    (ps : List (String × Option String)) :
    ∀ s : RState, obsEq d s.fs (resolveItems tok d ps s).fs := by
  induction ps with
  | nil => intro s; exact obsEq_refl d s.fs
  | cons p ps ih =>
    intro s
    rw [resolveItems_cons]
    exact obsEq_trans (resolveOne_obs_step tok d hshort s p) (ih _)

/-- C4: idempotence of resolve — calling `fetch` twice in a row on the
same batch, with no background fetch completing in between (the second
call starts from exactly the filesystem the first call left, the clock
having advanced), returns the same id-to-path mapping both times, even
though the second call overwrites the MISS ids' token files with fresh
tokens. Tokens are assumed shorter than 100 bytes, as the stringified
timestamps of the code are. -/
theorem C4_resolve_idempotent (tok : Nat → String)
    (reqs : List (String × Option String)) (dir : String) (fs : FS)
    (clock : Nat) (hshort : ∀ n, (tok n).length < 100) (r1 : RState)
    (h1 : fetch tok reqs dir fs clock = some r1) :
    ∃ r2, fetch tok reqs dir r1.fs r1.clock = some r2 ∧
      ∀ k, r2.ret k = r1.ret k := by
  cases hdm : formattedDir dir with
  | none => rw [fetch, hdm] at h1; cases h1
  | some d =>
    rw [fetch_eq_some tok reqs dir fs clock d hdm] at h1
    have h1' := Option.some.inj h1
    refine ⟨_, fetch_eq_some tok reqs dir r1.fs r1.clock d hdm, ?_⟩
    intro k
    have hobs : obsEq d r1.fs fs := by
      rw [← h1']
      exact obsEq_symm
        (resolveItems_obs_pass tok d hshort reqs ⟨fun _ => none, [], fs, clock⟩)
    have hsim := resolveItems_sim tok d hshort reqs
      ⟨fun _ => none, [], r1.fs, r1.clock⟩ ⟨fun _ => none, [], fs, clock⟩
      (fun _ => rfl) hobs
    rw [hsim.1 k, ← h1']

/-- Witness for C4 at a concrete batch with a HIT id, a NULL id and a
duplicated MISS id. -/
theorem C4_witness :
    ((fetch tok0 [("1", some "u"), ("2", none), ("1", some "u")] "c" fsEmpty 0).bind
      (fun r1 =>
        (fetch tok0 [("1", some "u"), ("2", none), ("1", some "u")] "c" r1.fs r1.clock).map
          (fun r2 => decide (r2.ret "1" = r1.ret "1") &&
            decide (r2.ret "2" = r1.ret "2") &&
            decide (r2.ret "9" = r1.ret "9")))) = some true := by
  have hd : formattedDir "c" = some "c/" := by decide
  have hfe := fetch_eq_some tok0 [("1", some "u"), ("2", none), ("1", some "u")]
    "c" fsEmpty 0 "c/" hd
  obtain ⟨r2, hr2, hret⟩ := C4_resolve_idempotent tok0
    [("1", some "u"), ("2", none), ("1", some "u")] "c" fsEmpty 0 tok0_short _ hfe
  rw [hfe]
  simp only [Option.some_bind]
  rw [hr2]
  simp [hret "1", hret "2", hret "9"]

/-! Machinery for C5 (eventual population): the background fetcher only
writes the png file of the item it is processing. -/

lemma fetcherRun_nil (provider : String → FetchOutcome) (d : String) (fs : FS) :
    fetcherRun provider d [] fs = fs := rfl

lemma fetcherRun_cons (provider : String → FetchOutcome) (d : String)
    (m : String × String × String) (ms : List (String × String × String))
    (fs : FS) :
    fetcherRun provider d (m :: ms) fs =
      fetcherRun provider d ms (fetcherItem provider d fs m) := rfl

lemma fetcherRun_append (provider : String → FetchOutcome) (d : String)
    (ms1 ms2 : List (String × String × String)) (fs : FS) :
    fetcherRun provider d (ms1 ++ ms2) fs =
      fetcherRun provider d ms2 (fetcherRun provider d ms1 fs) := by
  simp [fetcherRun, List.foldl_append]

lemma fetcherItem_fs_frame (provider : String → FetchOutcome) (d : String)
    (fs : FS) (m : String × String × String) (f : String)
    (hf : f ≠ pngName d m.1) :
    (fetcherItem provider d fs m) f = fs f := by
  rcases hc2 : fs (pngName d m.1) with _ | cur
  · simp [fetcherItem, hc2]
  · by_cases hc : cur = m.2.2
    · simp only [fetcherItem, hc2]
      rw [if_pos hc]
      cases provider m.2.1 <;> simp [fetchAndSave, fupdate, hf]
    · simp only [fetcherItem, hc2]
      rw [if_neg hc]

lemma fetcherRun_fs_frame (provider : String → FetchOutcome) (d : String)
    (ms : List (String × String × String)) (fs : FS) (f : String)
    (hf : ∀ m ∈ ms, f ≠ pngName d m.1) :
    fetcherRun provider d ms fs f = fs f := by
  induction ms generalizing fs with
  | nil => rfl
  | cons m ms ih =>
    rw [fetcherRun_cons, ih _ fun q hq => hf q (List.mem_cons_of_mem m hq),
      fetcherItem_fs_frame provider d fs m f (hf m (List.mem_cons_self m ms))]

/-- C5: eventual population. Take a batch in which id occurs once, with a
url, and a cache state in which the id has no usable png entry and no
legacy jpg entry, so resolve classifies it as MISS. If the provider
delivers an image of at least 100 bytes for its url, then after the first
`fetch`, the completed background run of `Fetcher.__call__` over the miss
list, and a second `fetch` of the same batch, the second call maps the id
to its real cached path `{formatted_dir}{id}.png`, not to a
placeholder. -/
theorem C5_eventual_population (tok : Nat → String) (dir d : String)
    (fs : FS) (clock : Nat) (id u bytes : String)
    (q1 q2 : List (String × Option String))
    (provider : String → FetchOutcome)
    (hd : formattedDir dir = some d)
    (h1 : ∀ p ∈ q1, id ≠ p.1) (h2 : ∀ p ∈ q2, id ≠ p.1)
    (hmiss_png : usable (fs (pngName d id)) = false)
    (hmiss_jpg : fs (jpgName d id) = none)
    (hprov : provider u = FetchOutcome.ok bytes)
    (hbytes : 100 ≤ bytes.length) (r1 : RState)
    (hr1 : fetch tok (q1 ++ (id, some u) :: q2) dir fs clock = some r1) :
    ∃ r2, fetch tok (q1 ++ (id, some u) :: q2) dir
        (fetcherRun provider d r1.misses r1.fs) r1.clock = some r2 ∧
      r2.ret id = some (pngName d id) := by
  rw [fetch_eq_some tok _ dir fs clock d hd] at hr1
  have hr1' := Option.some.inj hr1
  rw [resolveItems_append, resolveItems_cons] at hr1'
  set s0 : RState := ⟨fun _ => none, [], fs, clock⟩
  set sA : RState := resolveItems tok d q1 s0 with hsA
  have hApng : sA.fs (pngName d id) = fs (pngName d id) := by
    rw [hsA, resolveItems_fs_frame tok d q1 s0 _
      (fun p hp he => h1 p hp (pngName_inj he))]
  have hAjpg : sA.fs (jpgName d id) = none := by
    rw [hsA, resolveItems_jpg_frame]
    exact hmiss_jpg
  have husable : usable (sA.fs (pngName d id)) = false := by
    rw [hApng]
    exact hmiss_png
  have hB : resolveOne tok d sA (id, some u) =
      ⟨fun k => if k = id then some DUMMY_FILENAME else sA.ret k,
        sA.misses ++ [(id, u, tok sA.clock)],
        fupdate sA.fs (pngName d id) (tok sA.clock), sA.clock + 1⟩ := by
    simp [resolveOne, husable, hAjpg]
  set t : String := tok sA.clock
  -- decompose the miss list of the first call
  obtain ⟨new1, hnew1, hmem1⟩ := resolveItems_misses_mono tok d q1 s0
  obtain ⟨new2, hnew2, hmem2⟩ :=
    resolveItems_misses_mono tok d q2 (resolveOne tok d sA (id, some u))
  have hms : r1.misses = new1 ++ ([(id, u, t)] ++ new2) := by
    rw [← hsA] at hnew1
    have hs0m : s0.misses = [] := rfl
    rw [← hr1', hnew2, hB]
    simp [hnew1, hs0m]
  have hfst1 : ∀ m ∈ new1, m.1 ≠ id := by
    intro m hm he
    have hin := hmem1 m hm
    rw [he] at hin
    rcases List.mem_map.mp hin with ⟨p, hp, hpe⟩
    exact h1 p hp hpe.symm
  have hfst2 : ∀ m ∈ new2, m.1 ≠ id := by
    intro m hm he
    have hin := hmem2 m hm
    rw [he] at hin
    rcases List.mem_map.mp hin with ⟨p, hp, hpe⟩
    exact h2 p hp hpe.symm
  -- the first call leaves the fresh token on disk for our id
  have hr1png : r1.fs (pngName d id) = some t := by
    rw [← hr1', resolveItems_fs_frame tok d q2 _ _
      (fun p hp he => h2 p hp (pngName_inj he)), hB]
    simp [fupdate]
  -- run the background fetcher over the whole miss list
  set fs2 : FS := fetcherRun provider d r1.misses r1.fs with hfs2
  have hfs2png : fs2 (pngName d id) = some bytes := by
    rw [hfs2, hms, fetcherRun_append]
    have hX : fetcherRun provider d new1 r1.fs (pngName d id) = some t := by
      rw [fetcherRun_fs_frame provider d new1 r1.fs _
        (fun m hm he => hfst1 m hm (pngName_inj he).symm)]
      exact hr1png
    rw [fetcherRun_append, fetcherRun_fs_frame provider d new2 _ _
      (fun m hm he => hfst2 m hm (pngName_inj he).symm)]
    rw [fetcherRun_cons, fetcherRun_nil]
    have hitem : fetcherItem provider d (fetcherRun provider d new1 r1.fs)
        (id, u, t) = fupdate (fetcherRun provider d new1 r1.fs)
          (pngName d id) bytes := by
      simp [fetcherItem, hX, hprov, fetchAndSave]
    rw [hitem]
    simp [fupdate]
  -- the second call sees a usable png entry for our id
  refine ⟨_, fetch_eq_some tok _ dir fs2 r1.clock d hd, ?_⟩
  rw [resolveItems_append, resolveItems_cons]
  set s0' : RState := ⟨fun _ => none, [], fs2, r1.clock⟩
  set sA' : RState := resolveItems tok d q1 s0' with hsA'
  have hA'png : sA'.fs (pngName d id) = some bytes := by
    rw [hsA', resolveItems_fs_frame tok d q1 s0' _
      (fun p hp he => h1 p hp (pngName_inj he))]
    exact hfs2png
  have husable2 : usable (sA'.fs (pngName d id)) = true := by
    rw [hA'png]
    simp only [usable, decide_eq_true_eq]
    omega
  have hC : resolveOne tok d sA' (id, some u) =
      { sA' with ret := fun k => if k = id then some (pngName d id)
          else sA'.ret k } := by
    simp [resolveOne, husable2]
  rw [hC, resolveItems_ret_other tok d q2 _ id h2]
  simp

/-- Witness for C5 at a concrete singleton batch, empty cache and a
provider returning a 100-byte image. -/
theorem C5_witness :
    ((fetch tok0 [("7", some "u")] "c" fsEmpty 0).bind (fun r1 =>
      (fetch tok0 [("7", some "u")] "c"
        (fetcherRun (fun _ => FetchOutcome.ok staleImg) "c/" r1.misses r1.fs)
        r1.clock).map (fun r2 => r2.ret "7"))) = some (some (pngName "c/" "7")) := by
  have hd : formattedDir "c" = some "c/" := by decide
  have hfe := fetch_eq_some tok0 [("7", some "u")] "c" fsEmpty 0 "c/" hd
  obtain ⟨r2, hr2, hret⟩ := C5_eventual_population tok0 "c" "c/" fsEmpty 0
    "7" "u" staleImg [] [] (fun _ => FetchOutcome.ok staleImg) hd
    (by simp) (by simp) rfl rfl rfl (by decide) _ hfe
  rw [hfe]
  simp only [Option.some_bind]
  simp only [List.nil_append] at hr2
  rw [hr2]
  simp [hret]

/-! Machinery for C10 (duplicate ids in one batch). -/

/-- The MISS branch of the loop body, computed. -/
lemma resolveOne_miss (tok : Nat → String) (d : String) (s : RState)
    (id u : String) (hun : usable (s.fs (pngName d id)) = false)
    (hjn : s.fs (jpgName d id) = none) :
    resolveOne tok d s (id, some u) =
      ⟨fun k => if k = id then some DUMMY_FILENAME else s.ret k,
        s.misses ++ [(id, u, tok s.clock)],
        fupdate s.fs (pngName d id) (tok s.clock), s.clock + 1⟩ := by
  simp [resolveOne, hun, hjn]

/-- Invariant induction for a batch that may contain an id several times:
while the id's png entry stays unusable and its jpg entry absent, every
occurrence of the id is classified MISS; its miss triples extend in batch
order carrying the occurrence's url, the on-disk png content ends as the
last such triple's token, and the result map holds the dummy placeholder
as soon as one occurrence was processed. -/
lemma resolveItems_dup_ind (tok : Nat → String) (d : String) (id : String)
    (hshort : ∀ n, (tok n).length < 100)
    (ps : List (String × Option String)) :
    ∀ s : RState, usable (s.fs (pngName d id)) = false →
      s.fs (jpgName d id) = none →
      (∀ p ∈ ps, p.1 = id → p.2.isSome) →
      ∃ trips : List (String × String × String),
        (resolveItems tok d ps s).misses.filter (fun m => decide (m.1 = id)) =
          s.misses.filter (fun m => decide (m.1 = id)) ++ trips ∧
        trips.map (fun m => (m.1, m.2.1)) =
          (ps.filter (fun p => decide (p.1 = id))).map (fun p => (p.1, p.2.getD "")) ∧
        (trips = [] →
          (resolveItems tok d ps s).fs (pngName d id) = s.fs (pngName d id)) ∧
        (∀ mlast, trips.getLast? = some mlast →
          (resolveItems tok d ps s).fs (pngName d id) = some mlast.2.2) ∧
        (trips = [] → (resolveItems tok d ps s).ret id = s.ret id) ∧
        (trips ≠ [] → (resolveItems tok d ps s).ret id = some DUMMY_FILENAME) := by
  induction ps with
  | nil =>
    intro s hpng hjpg hocc
    refine ⟨[], by rw [resolveItems_nil]; simp, by simp, fun _ => rfl,
      fun mlast h => by simp at h, fun _ => rfl, fun h => absurd rfl h⟩
  | cons p ps ih =>
    rcases p with ⟨pid, purl⟩
    intro s hpng hjpg hocc
    rw [resolveItems_cons]
    by_cases hpid : pid = id
    · subst hpid
      obtain ⟨u, hu⟩ := Option.isSome_iff_exists.mp
        (hocc (pid, purl) (List.mem_cons_self _ ps) rfl)
      subst hu
      have hB := resolveOne_miss tok d s pid u hpng hjpg
      have hpng2 : usable ((resolveOne tok d s (pid, some u)).fs
          (pngName d pid)) = false := by
        rw [hB]
        simp [fupdate, usable_short (hshort s.clock)]
      have hjpg2 : (resolveOne tok d s (pid, some u)).fs (jpgName d pid) = none := by
        rw [hB]
        simp only [fupdate]
        rw [if_neg (Ne.symm (pngName_ne_jpgName d pid pid))]
        exact hjpg
      have hocc2 : ∀ q ∈ ps, q.1 = pid → q.2.isSome :=
        fun q hq => hocc q (List.mem_cons_of_mem _ hq)
      obtain ⟨trips', ht1, ht2, ht3, ht4, ht5, ht6⟩ := ih _ hpng2 hjpg2 hocc2
      have hmiss' : (resolveOne tok d s (pid, some u)).misses =
          s.misses ++ [(pid, u, tok s.clock)] := by rw [hB]
      have hret' : (resolveOne tok d s (pid, some u)).ret pid =
          some DUMMY_FILENAME := by rw [hB]; simp
      have hfs' : (resolveOne tok d s (pid, some u)).fs (pngName d pid) =
          some (tok s.clock) := by rw [hB]; simp [fupdate]
      refine ⟨(pid, u, tok s.clock) :: trips', ?_, ?_, ?_, ?_, ?_, ?_⟩
      · rw [ht1, hmiss', List.filter_append]
        simp
      · simp [ht2]
      · intro h
        simp at h
      · intro mlast hml
        rcases trips' with _ | ⟨m2, rest⟩
        · simp only [List.getLast?_singleton, Option.some.injEq] at hml
          rw [ht3 rfl, hfs', ← hml]
        · rw [List.getLast?_cons_cons] at hml
          exact ht4 mlast hml
      · intro h
        simp at h
      · intro _
        by_cases htr : trips' = []
        · rw [ht5 htr, hret']
        · exact ht6 htr
    · have hne_id : id ≠ pid := fun he => hpid he.symm
      have f1 : (resolveOne tok d s (pid, purl)).fs (pngName d id) =
          s.fs (pngName d id) := by
        rcases resolveOne_cases tok d s (pid, purl) with ⟨_, h, _⟩ | ⟨u, _, _, _, h⟩
        · rw [h]
        · rw [h]
          simp only [fupdate]
          rw [if_neg (fun he => hpid (pngName_inj he).symm)]
      have f2 : (resolveOne tok d s (pid, purl)).fs (jpgName d id) =
          s.fs (jpgName d id) := by
        rcases resolveOne_cases tok d s (pid, purl) with ⟨_, h, _⟩ | ⟨u, _, _, _, h⟩
        · rw [h]
        · rw [h]
          simp only [fupdate]
          rw [if_neg (Ne.symm (pngName_ne_jpgName d pid id))]
      have f3 : (resolveOne tok d s (pid, purl)).misses.filter
          (fun m => decide (m.1 = id)) =
          s.misses.filter (fun m => decide (m.1 = id)) := by
        rcases resolveOne_cases tok d s (pid, purl) with ⟨h, _, _⟩ | ⟨u, _, _, _, h⟩
        · rw [h]
        · rw [h]
          simp only [List.filter_append]
          simp [hpid]
      have f4 : (resolveOne tok d s (pid, purl)).ret id = s.ret id :=
        resolveOne_ret_other tok d s (pid, purl) id hne_id
      have hpng2 : usable ((resolveOne tok d s (pid, purl)).fs
          (pngName d id)) = false := by rw [f1]; exact hpng
      have hjpg2 : (resolveOne tok d s (pid, purl)).fs (jpgName d id) = none := by
        rw [f2]; exact hjpg
      have hocc2 : ∀ q ∈ ps, q.1 = id → q.2.isSome :=
        fun q hq => hocc q (List.mem_cons_of_mem _ hq)
      obtain ⟨trips', ht1, ht2, ht3, ht4, ht5, ht6⟩ := ih _ hpng2 hjpg2 hocc2
      refine ⟨trips', ?_, ?_, ?_, ?_, ?_, ?_⟩
      · rw [ht1, f3]
      · rw [ht2]
        simp [List.filter_cons, hpid]
      · intro h
        rw [ht3 h, f1]
      · intro mlast hml
        exact ht4 mlast hml
      · intro h
        rw [ht5 h, f4]
      · intro h
        exact ht6 h

/-- C10: duplicate ids in one batch. If an id occurs at least twice in a
batch, each of its occurrences carries a url, and the cache holds neither
a usable png entry nor a legacy jpg entry for it (so every occurrence is
a MISS), then the returned map binds the id once, to the dummy
placeholder; the miss list carries one (id, url, token) triple per
occurrence, in batch order with each occurrence's url; the png file on
disk when the call returns holds the token of the LAST occurrence's
triple; and a fetcher iteration whose carried token differs from the
current on-disk content leaves the filesystem entirely unchanged, so the
earlier occurrences' fetches commit nothing whenever their tokens differ
from the last one's. -/
theorem C10_duplicate_ids (tok : Nat → String) (dir d : String) (fs : FS)
    (clock : Nat) (id : String) (reqs : List (String × Option String))
    (hshort : ∀ n, (tok n).length < 100)
    (hd : formattedDir dir = some d)
    (hocc : ∀ p ∈ reqs, p.1 = id → p.2.isSome)
    (hmulti : 2 ≤ (reqs.filter (fun p => decide (p.1 = id))).length)
    (hpng : usable (fs (pngName d id)) = false)
    (hjpg : fs (jpgName d id) = none)
    (r : RState) (hr : fetch tok reqs dir fs clock = some r) :
    r.ret id = some DUMMY_FILENAME ∧
    (r.misses.filter (fun m => decide (m.1 = id))).map (fun m => (m.1, m.2.1)) =
      (reqs.filter (fun p => decide (p.1 = id))).map (fun p => (p.1, p.2.getD "")) ∧
    (∃ mlast, (r.misses.filter (fun m => decide (m.1 = id))).getLast? = some mlast ∧
      r.fs (pngName d id) = some mlast.2.2) ∧
    (∀ (provider : String → FetchOutcome) (fsx : FS)
      (m : String × String × String) (tcur : String),
      fsx (pngName d m.1) = some tcur → m.2.2 ≠ tcur →
      fetcherItem provider d fsx m = fsx) := by
  rw [fetch_eq_some tok reqs dir fs clock d hd] at hr
  have hr' := Option.some.inj hr
  obtain ⟨trips, ht1, ht2, ht3, ht4, ht5, ht6⟩ :=
    resolveItems_dup_ind tok d id hshort reqs
      ⟨fun _ => none, [], fs, clock⟩ hpng hjpg hocc
  rw [hr'] at ht1 ht3 ht4 ht5 ht6
  have hfilter : r.misses.filter (fun m => decide (m.1 = id)) = trips := by
    rw [ht1]
    rfl
  have htne : trips ≠ [] := by
    intro h
    rw [h] at ht2
    have hlen := congrArg List.length ht2
    simp only [List.length_map, List.length_nil] at hlen
    omega
  refine ⟨ht6 htne, ?_, ?_, ?_⟩
  · rw [hfilter]
    exact ht2
  · obtain ⟨mlast, hml⟩ := Option.isSome_iff_exists.mp
      (List.getLast?_isSome.mpr htne)
    exact ⟨mlast, by rw [hfilter]; exact hml, ht4 mlast hml⟩
  · intro provider fsx m tcur hcur hne
    have hne' : ¬(tcur = m.2.2) := fun he => hne he.symm
    simp [fetcherItem, hcur, hne']

/-- Witness for C10 at a concrete batch with a duplicated MISS id. -/
theorem C10_witness :
    ((fetch tok0 [("7", some "u"), ("7", some "v")] "c" fsEmpty 0).map (fun r =>
      decide (r.ret "7" = some DUMMY_FILENAME) &&
      decide ((r.misses.filter (fun m => decide (m.1 = "7"))).map
          (fun m => (m.1, m.2.1)) = [("7", "u"), ("7", "v")]) &&
      (match (r.misses.filter (fun m => decide (m.1 = "7"))).getLast? with
        | none => false
        | some mlast => decide (r.fs (pngName "c/" "7") = some mlast.2.2)))) =
      some true := by
  have hd : formattedDir "c" = some "c/" := by decide
  have hfe := fetch_eq_some tok0 [("7", some "u"), ("7", some "v")] "c" fsEmpty 0
    "c/" hd
  obtain ⟨h1, h2, ⟨mlast, hml, hfs⟩, _⟩ := C10_duplicate_ids tok0 "c" "c/" fsEmpty
    0 "7" [("7", some "u"), ("7", some "v")] tok0_short hd
    (by decide) (by decide) rfl rfl _ hfe
  rw [hfe]
  simp only [Option.map_some']
  rw [hml]
  simp only [Option.some.injEq, Bool.and_eq_true, decide_eq_true_eq]
  refine ⟨⟨h1, ?_⟩, by simp [hfs]⟩
  rw [h2]
  decide

end ShowHN
